import Mathlib

/-!
Verification of the HTTP certification core
(`packages/ic-http-certification/src/tree/certification.rs`).

The core builds certification descriptors for HTTP request/response pairs
and encodes them as byte-sequence paths for a Merkle-style certification
tree.  The representation-independent hash function, the request/response
hashers and the CEL-expression serializer are external collaborators of the
core; they are modelled here as parameters bundled in an `Externals`
record, so every theorem quantifies over all possible collaborators that
satisfy their stated contracts.
-/

/-- A 32-byte digest, the output type of every external hasher
(`ic_certification::Hash` is `[u8; 32]`).  Bytes are modelled as `Nat`. -/
abbrev Hash : Type := { l : List Nat // l.length = 32 }

/-- The byte encoding of a string, as used by `str::as_bytes` before
hashing.  Any injective encoding is faithful here, since the hash function
itself is abstract; we encode each character by its code point. -/
def strBytes (s : String) : List Nat :=
  s.data.map Char.toNat

/-- Modelled from the spec: request-certification rules of a CEL
expression ("which headers/query parameters to include"); the request
hasher consumes them as a black box, so their exact shape is irrelevant. -/
structure RequestCertification where
  certifiedRequestHeaders : List String
  certifiedQueryParameters : List String
deriving DecidableEq

/-- Modelled from the spec: response-certification rules of a CEL
expression; consumed as a black box by the response hasher. -/
inductive ResponseCertification where
  | certifiedResponseHeaders (headers : List String)
  | responseHeaderExclusions (headers : List String)
deriving DecidableEq

/-- Modelled from the spec: a response-only CEL policy expression; it
carries its response-certification rules and has a canonical textual
serialization (supplied by `Externals.roCelText`). -/
structure DefaultResponseOnlyCelExpression where
  response : ResponseCertification
deriving DecidableEq

/-- Modelled from the spec: a full CEL policy expression, carrying both
request- and response-certification rules. -/
structure DefaultFullCelExpression where
  request : RequestCertification
  response : ResponseCertification
deriving DecidableEq

/-- Modelled from the spec: an HTTP request (method, url, headers, body). -/
structure HttpRequest where
  method : String
  url : String
  headers : List (String × String)
  body : List Nat
deriving DecidableEq

/-- Modelled from the spec: an HTTP response (status code, headers, body,
upgrade flag). -/
structure HttpResponse where
  status_code : Nat
  headers : List (String × String)
  body : List Nat
  upgrade : Option Bool
deriving DecidableEq

/-- The external collaborators of the core, with the contracts of spec §6:
`hash` is the representation-independent hash over bytes, `requestHash`
applies request-certification rules and may fail with an error of type `ε`,
`responseHash` is total, and the three `…CelText` fields are the canonical
textual serializations of the policy expressions. -/
structure Externals (ε : Type) where
  hash : List Nat → Hash
  requestHash : HttpRequest → RequestCertification → Except ε Hash
  responseHash : HttpResponse → ResponseCertification → Option Hash → Hash
  skipCelText : String
  roCelText : DefaultResponseOnlyCelExpression → String
  fullCelText : DefaultFullCelExpression → String

/-- The three certification variants (enum `HttpCertificationType` in the
source): exactly the hashes required by the variant are stored. -/
inductive HttpCertificationType where
  | skip (cel_expr_hash : Hash)
  | responseOnly (cel_expr_hash : Hash) (response_hash : Hash)
  | full (cel_expr_hash : Hash) (request_hash : Hash) (response_hash : Hash)
deriving DecidableEq

/-- The public certification value (newtype `HttpCertification` in the
source). -/
structure HttpCertification where
  val : HttpCertificationType
deriving DecidableEq

/-- `HttpCertification::skip`: hash the canonical skip-certification CEL
text; store only that hash. -/
def HttpCertification.skip (ext : Externals ε) : HttpCertification :=
  ⟨.skip (ext.hash (strBytes ext.skipCelText))⟩

/-- `HttpCertification::response_only`: hash the CEL text and the response
(under the policy rules, with an optional precomputed body digest). -/
def HttpCertification.response_only (ext : Externals ε)
    (cel_expr : DefaultResponseOnlyCelExpression) (response : HttpResponse)
    (response_body_hash : Option Hash) : HttpCertification :=
  ⟨.responseOnly (ext.hash (strBytes (ext.roCelText cel_expr)))
    (ext.responseHash response cel_expr.response response_body_hash)⟩

/-- `HttpCertification::full`: hash the CEL text, then the request (which
may fail, short-circuiting with `?`), then the response. -/
def HttpCertification.full (ext : Externals ε)
    (cel_expr : DefaultFullCelExpression) (request : HttpRequest)
    (response : HttpResponse) (response_body_hash : Option Hash) :
    Except ε HttpCertification :=
  let cel_expr_hash := ext.hash (strBytes (ext.fullCelText cel_expr))
  match ext.requestHash request cel_expr.request with
  | .error e => .error e
  | .ok request_hash =>
      let response_hash :=
        ext.responseHash response cel_expr.response response_body_hash
      .ok ⟨.full cel_expr_hash request_hash response_hash⟩

/-- `HttpCertification::to_tree_path`: the canonical path encoding of a
certification. -/
def HttpCertification.to_tree_path (c : HttpCertification) :
    List (List Nat) :=
  match c.val with
  | .skip cel_expr_hash => [cel_expr_hash.val]
  | .responseOnly cel_expr_hash response_hash =>
      [cel_expr_hash.val, strBytes "", response_hash.val]
  | .full cel_expr_hash request_hash response_hash =>
      [cel_expr_hash.val, request_hash.val, response_hash.val]

/-- The external calls `HttpCertification::full` can make, in order to
state which hashers actually run. -/
inductive ExtCall where
  | policy
  | request
  | response
deriving DecidableEq

/-- `HttpCertification::full`, instrumented with the sequence of external
hasher invocations it performs, in source order: the CEL text is hashed
first, then the request hasher runs (the `?` operator returns its error
immediately), and only on its success does the response hasher run. -/
def HttpCertification.fullTrace (ext : Externals ε)
    (cel_expr : DefaultFullCelExpression) (request : HttpRequest)
    (response : HttpResponse) (response_body_hash : Option Hash) :
    Except ε HttpCertification × List ExtCall :=
  let cel_expr_hash := ext.hash (strBytes (ext.fullCelText cel_expr))
  match ext.requestHash request cel_expr.request with
  | .error e => (.error e, [.policy, .request])
  | .ok request_hash =>
      let response_hash :=
        ext.responseHash response cel_expr.response response_body_hash
      (.ok ⟨.full cel_expr_hash request_hash response_hash⟩,
        [.policy, .request, .response])

/- Concrete instantiations used by witnesses. -/

/-- An injective encoding of byte lists into `Nat`, used to build a
collision-free concrete hash function for witnesses. -/
def encodeList : List Nat → Nat
  | [] => 0
  | a :: l => Nat.pair a (encodeList l) + 1

/-- A concrete, provably injective hash function. -/
def injHash (l : List Nat) : Hash :=
  ⟨encodeList l :: List.replicate 31 0, by simp⟩

/-- The all-zero digest. -/
def hash0 : Hash := ⟨List.replicate 32 0, by simp⟩

/-- A second concrete digest. -/
def hash1 : Hash := ⟨1 :: List.replicate 31 0, by simp⟩

def exampleResponseRules : ResponseCertification :=
  .certifiedResponseHeaders ["ETag", "Cache-Control"]

def exampleRequestRules : RequestCertification :=
  ⟨["If-Match"], ["foo", "bar", "baz"]⟩

def exampleRoCel : DefaultResponseOnlyCelExpression := ⟨exampleResponseRules⟩

def exampleFullCel : DefaultFullCelExpression :=
  ⟨exampleRequestRules, exampleResponseRules⟩

def exampleRequest : HttpRequest := ⟨"GET", "/index.html", [], []⟩

def exampleResponse : HttpResponse := ⟨200, [], [], none⟩

/-- Concrete externals whose request hasher always succeeds. -/
def okExternals : Externals Unit where
  hash := injHash
  requestHash := fun _ _ => .ok hash1
  responseHash := fun _ _ _ => hash0
  skipCelText := "skip"
  roCelText := fun _ => "response-only"
  fullCelText := fun _ => "full"

/-- Concrete externals whose request hasher always fails. -/
def failExternals : Externals Unit where
  hash := injHash
  requestHash := fun _ _ => .error ()
  responseHash := fun _ _ _ => hash0
  skipCelText := "skip"
  roCelText := fun _ => "response-only"
  fullCelText := fun _ => "full"

/- Helper lemmas. -/

theorem hash_val_ne_nil (h : Hash) : h.val ≠ [] := by
  intro hnil
  have := h.property
  rw [hnil] at this
  simp at this

theorem encodeList_injective : Function.Injective encodeList := by
  intro a
  induction a with
  | nil =>
      intro b h
      cases b with
      | nil => rfl
      | cons x xs => simp [encodeList] at h
  | cons x xs ih =>
      intro b h
      cases b with
      | nil => simp [encodeList] at h
      | cons y ys =>
          simp only [encodeList, Nat.add_right_cancel_iff,
            Nat.pair_eq_pair] at h
          rw [h.1, ih h.2]

theorem injHash_injective : Function.Injective injHash := by
  intro a b h
  have hv : (injHash a).val = (injHash b).val := congrArg Subtype.val h
  simp only [injHash, List.cons.injEq] at hv
  exact encodeList_injective hv.1

theorem strBytes_injective : Function.Injective strBytes := by
  intro a b h
  apply String.ext
  have hinj : Function.Injective Char.toNat := by
    intro c d hc
    rw [← Char.ofNat_toNat c, ← Char.ofNat_toNat d, hc]
  exact List.map_injective_iff.mpr hinj h

theorem strBytes_nil : strBytes "" = [] := rfl

/-- C3: `skip()` always succeeds and its tree path is the single-element
list holding the hash of the canonical skip-certification CEL text. -/
theorem skip_path_spec (ε : Type) (ext : Externals ε) :
    (HttpCertification.skip ext).to_tree_path
        = [(ext.hash (strBytes ext.skipCelText)).val] ∧
      (HttpCertification.skip ext).to_tree_path.length = 1 :=
  ⟨rfl, rfl⟩

/-- C2: `response_only` always succeeds; its path has exactly 3 segments:
the recomputed policy hash, the empty byte string, and the recomputed
response hash, in that order. -/
theorem response_only_path_spec (ε : Type) (ext : Externals ε)
    (cel : DefaultResponseOnlyCelExpression) (r : HttpResponse)
    (b : Option Hash) :
    (HttpCertification.response_only ext cel r b).to_tree_path
        = [(ext.hash (strBytes (ext.roCelText cel))).val, [],
            (ext.responseHash r cel.response b).val] ∧
      (HttpCertification.response_only ext cel r b).to_tree_path.length = 3 :=
  ⟨rfl, rfl⟩

/-- C1: whenever request hashing succeeds, `full` succeeds and the produced
path has exactly 3 nonempty segments: the recomputed policy hash, the
request hash, and the recomputed response hash, in that order. -/
theorem full_path_spec (ε : Type) (ext : Externals ε)
    (cel : DefaultFullCelExpression) (q : HttpRequest) (r : HttpResponse)
    (b : Option Hash) (qh : Hash)
    (hq : ext.requestHash q cel.request = Except.ok qh) :
    ∃ c, HttpCertification.full ext cel q r b = Except.ok c ∧
      c.to_tree_path = [(ext.hash (strBytes (ext.fullCelText cel))).val,
        qh.val, (ext.responseHash r cel.response b).val] ∧
      c.to_tree_path.length = 3 ∧
      ∀ seg ∈ c.to_tree_path, seg ≠ [] := by
  refine ⟨⟨.full (ext.hash (strBytes (ext.fullCelText cel))) qh
      (ext.responseHash r cel.response b)⟩, ?_, rfl, rfl, ?_⟩
  · unfold HttpCertification.full
    rw [hq]
  · intro seg hs
    simp only [HttpCertification.to_tree_path, List.mem_cons,
      List.not_mem_nil, or_false] at hs
    rcases hs with h | h | h <;> rw [h] <;> exact hash_val_ne_nil _

/-- C1 witness. -/
theorem full_path_spec_witness :
    okExternals.requestHash exampleRequest exampleFullCel.request
        = Except.ok hash1 ∧
      ∃ c, HttpCertification.full okExternals exampleFullCel exampleRequest
          exampleResponse none = Except.ok c ∧
        c.to_tree_path
            = [(okExternals.hash (strBytes
                (okExternals.fullCelText exampleFullCel))).val, hash1.val,
              (okExternals.responseHash exampleResponse
                exampleFullCel.response none).val] ∧
        c.to_tree_path.length = 3 ∧
        ∀ seg ∈ c.to_tree_path, seg ≠ [] :=
  ⟨rfl, full_path_spec Unit okExternals exampleFullCel exampleRequest
    exampleResponse none hash1 rfl⟩

/-- C4: only full construction can fail, and it fails exactly when the
request hasher errors, propagating that error unchanged (and succeeding
exactly when the request hasher succeeds); skip construction,
response-only construction, and path encoding always yield a value. -/
theorem full_fails_iff_request_hash_fails (ε : Type) (ext : Externals ε)
    (celRo : DefaultResponseOnlyCelExpression)
    (cel : DefaultFullCelExpression) (q : HttpRequest) (r : HttpResponse)
    (b : Option Hash) (e : ε) :
    (HttpCertification.full ext cel q r b = Except.error e ↔
        ext.requestHash q cel.request = Except.error e) ∧
      ((∃ c, HttpCertification.full ext cel q r b = Except.ok c) ↔
        (∃ qh, ext.requestHash q cel.request = Except.ok qh)) ∧
      (∃ c, HttpCertification.skip ext = c) ∧
      (∃ c, HttpCertification.response_only ext celRo r b = c) ∧
      (∃ p, (HttpCertification.skip ext).to_tree_path = p) := by
  refine ⟨?_, ?_, ⟨_, rfl⟩, ⟨_, rfl⟩, ⟨_, rfl⟩⟩ <;>
    cases hq : ext.requestHash q cel.request <;>
      simp [HttpCertification.full, hq]

/-- C5 counterexample: with a request hasher that fails, `full` (run with
its external calls traced in source order) returns the error after invoking
only the policy hasher and the request hasher: the response hasher is never
invoked, so no response hash was "already computed" at the point of
failure, contrary to the claimed computation order. -/
theorem full_order_counterexample :
    (HttpCertification.fullTrace failExternals exampleFullCel exampleRequest
        exampleResponse none).1 = Except.error () ∧
      (HttpCertification.fullTrace failExternals exampleFullCel
          exampleRequest exampleResponse none).2
        = [ExtCall.policy, ExtCall.request] ∧
      ExtCall.response ∉ (HttpCertification.fullTrace failExternals
        exampleFullCel exampleRequest exampleResponse none).2 :=
  ⟨rfl, rfl, by decide⟩

/-- C5 (amended): `build_full` computes the policy hash first and then the
request hash; if request hashing fails, its error is returned at once, the
response hasher is never invoked, and no certification value is produced;
only on success is the response hash computed, as the last step.  The
instrumented run agrees with `HttpCertification.full` on the result. -/
theorem full_hashing_order (ε : Type) (ext : Externals ε)
    (cel : DefaultFullCelExpression) (q : HttpRequest) (r : HttpResponse)
    (b : Option Hash) :
    (HttpCertification.fullTrace ext cel q r b).1
        = HttpCertification.full ext cel q r b ∧
      (HttpCertification.fullTrace ext cel q r b).2
        = (match ext.requestHash q cel.request with
            | Except.ok _ => [ExtCall.policy, ExtCall.request,
                ExtCall.response]
            | Except.error _ => [ExtCall.policy, ExtCall.request]) := by
  cases hq : ext.requestHash q cel.request <;>
    simp [HttpCertification.fullTrace, HttpCertification.full, hq]

/-- Inversion for `full`: a successful result stores exactly the policy
hash, the request hash returned by the hasher, and the response hash. -/
theorem full_inversion (ε : Type) (ext : Externals ε)
    (cel : DefaultFullCelExpression) (q : HttpRequest) (r : HttpResponse)
    (b : Option Hash) (c : HttpCertification)
    (h : HttpCertification.full ext cel q r b = Except.ok c) :
    ∃ qh, ext.requestHash q cel.request = Except.ok qh ∧
      c = ⟨.full (ext.hash (strBytes (ext.fullCelText cel))) qh
        (ext.responseHash r cel.response b)⟩ := by
  cases hq : ext.requestHash q cel.request with
  | error e => simp [HttpCertification.full, hq] at h
  | ok qh =>
      simp only [HttpCertification.full, hq, Except.ok.injEq] at h
      exact ⟨qh, rfl, h.symm⟩

/-- A concrete certification value produced by `full` over
`okExternals`. -/
def exampleFullCert : HttpCertification :=
  ⟨.full (injHash (strBytes "full")) hash1 hash0⟩

/-- C6: every path has length 1 or 3; under the external contracts (a
collision-free hash, and canonical texts of the skip policy distinct from
those of the given response-only and full policies) a skip path never
starts with the same first segment as a response-only or full path, hence
the length-1 path can never be a prefix of either length-3 path. -/
theorem path_length_and_variant_separation (ε : Type) (ext : Externals ε)
    (celRo : DefaultResponseOnlyCelExpression)
    (celF : DefaultFullCelExpression) (q : HttpRequest)
    (r1 r2 : HttpResponse) (b1 b2 : Option Hash) (c : HttpCertification)
    (hInj : Function.Injective ext.hash)
    (hne1 : ext.skipCelText ≠ ext.roCelText celRo)
    (hne2 : ext.skipCelText ≠ ext.fullCelText celF)
    (hfull : HttpCertification.full ext celF q r2 b2 = Except.ok c) :
    (∀ cert : HttpCertification,
        cert.to_tree_path.length = 1 ∨ cert.to_tree_path.length = 3) ∧
      (HttpCertification.skip ext).to_tree_path.head?
          ≠ (HttpCertification.response_only ext celRo r1 b1).to_tree_path.head? ∧
      ¬ (HttpCertification.skip ext).to_tree_path
          <+: (HttpCertification.response_only ext celRo r1 b1).to_tree_path ∧
      (HttpCertification.skip ext).to_tree_path.head? ≠ c.to_tree_path.head? ∧
      ¬ (HttpCertification.skip ext).to_tree_path <+: c.to_tree_path := by
  obtain ⟨qh, hq, rfl⟩ := full_inversion ε ext celF q r2 b2 c hfull
  have hno1 : ext.hash (strBytes ext.skipCelText)
      ≠ ext.hash (strBytes (ext.roCelText celRo)) :=
    fun he => hne1 (strBytes_injective (hInj he))
  have hno2 : ext.hash (strBytes ext.skipCelText)
      ≠ ext.hash (strBytes (ext.fullCelText celF)) :=
    fun he => hne2 (strBytes_injective (hInj he))
  refine ⟨?_, ?_, ?_, ?_, ?_⟩
  · intro cert
    obtain ⟨v⟩ := cert
    cases v with
    | skip a => exact Or.inl rfl
    | responseOnly a b => exact Or.inr rfl
    | full a b c => exact Or.inr rfl
  · intro h
    exact hno1 (Subtype.ext (Option.some.inj h))
  · intro h
    exact hno1 (Subtype.ext (List.cons_prefix_cons.mp h).1)
  · intro h
    exact hno2 (Subtype.ext (Option.some.inj h))
  · intro h
    exact hno2 (Subtype.ext (List.cons_prefix_cons.mp h).1)

/-- C6 witness. -/
theorem path_length_and_variant_separation_witness :
    Function.Injective okExternals.hash ∧
      okExternals.skipCelText ≠ okExternals.roCelText exampleRoCel ∧
      okExternals.skipCelText ≠ okExternals.fullCelText exampleFullCel ∧
      HttpCertification.full okExternals exampleFullCel exampleRequest
          exampleResponse none = Except.ok exampleFullCert ∧
      ((∀ cert : HttpCertification,
          cert.to_tree_path.length = 1 ∨ cert.to_tree_path.length = 3) ∧
        (HttpCertification.skip okExternals).to_tree_path.head?
            ≠ (HttpCertification.response_only okExternals exampleRoCel
                exampleResponse none).to_tree_path.head? ∧
        ¬ (HttpCertification.skip okExternals).to_tree_path
            <+: (HttpCertification.response_only okExternals exampleRoCel
                exampleResponse none).to_tree_path ∧
        (HttpCertification.skip okExternals).to_tree_path.head?
            ≠ exampleFullCert.to_tree_path.head? ∧
        ¬ (HttpCertification.skip okExternals).to_tree_path
            <+: exampleFullCert.to_tree_path) :=
  ⟨injHash_injective, by decide, by decide, rfl,
    path_length_and_variant_separation Unit okExternals exampleRoCel
      exampleFullCel exampleRequest exampleResponse exampleResponse none none
      exampleFullCert injHash_injective (by decide) (by decide) rfl⟩

/-- C7: the stored policy hash is always the hash of the canonical text of
the policy expression, it is present in every variant, and it is the first
segment of the path of the certification. -/
theorem policy_hash_first_segment (ε : Type) (ext : Externals ε)
    (celRo : DefaultResponseOnlyCelExpression)
    (celF : DefaultFullCelExpression) (q : HttpRequest)
    (r1 r2 : HttpResponse) (b1 b2 : Option Hash) (c : HttpCertification)
    (hfull : HttpCertification.full ext celF q r2 b2 = Except.ok c) :
    (HttpCertification.skip ext).to_tree_path.head?
        = some (ext.hash (strBytes ext.skipCelText)).val ∧
      (HttpCertification.response_only ext celRo r1 b1).to_tree_path.head?
        = some (ext.hash (strBytes (ext.roCelText celRo))).val ∧
      c.to_tree_path.head?
        = some (ext.hash (strBytes (ext.fullCelText celF))).val := by
  obtain ⟨qh, hq, rfl⟩ := full_inversion ε ext celF q r2 b2 c hfull
  exact ⟨rfl, rfl, rfl⟩

/-- C7 witness. -/
theorem policy_hash_first_segment_witness :
    HttpCertification.full okExternals exampleFullCel exampleRequest
        exampleResponse none = Except.ok exampleFullCert ∧
      ((HttpCertification.skip okExternals).to_tree_path.head?
          = some (okExternals.hash (strBytes okExternals.skipCelText)).val ∧
        (HttpCertification.response_only okExternals exampleRoCel
            exampleResponse none).to_tree_path.head?
          = some (okExternals.hash (strBytes
              (okExternals.roCelText exampleRoCel))).val ∧
        exampleFullCert.to_tree_path.head?
          = some (okExternals.hash (strBytes
              (okExternals.fullCelText exampleFullCel))).val) :=
  ⟨rfl, policy_hash_first_segment Unit okExternals exampleRoCel
    exampleFullCel exampleRequest exampleResponse exampleResponse none none
    exampleFullCert rfl⟩

/-- C8: construction and path encoding are deterministic: two runs of the
same constructor on identical inputs produce certifications with identical
paths. -/
theorem build_deterministic (ε : Type) (ext : Externals ε)
    (celRo : DefaultResponseOnlyCelExpression)
    (celF : DefaultFullCelExpression) (q : HttpRequest) (r : HttpResponse)
    (b : Option Hash) (s1 s2 o1 o2 f1 f2 : HttpCertification)
    (hs1 : HttpCertification.skip ext = s1)
    (hs2 : HttpCertification.skip ext = s2)
    (ho1 : HttpCertification.response_only ext celRo r b = o1)
    (ho2 : HttpCertification.response_only ext celRo r b = o2)
    (hf1 : HttpCertification.full ext celF q r b = Except.ok f1)
    (hf2 : HttpCertification.full ext celF q r b = Except.ok f2) :
    s1.to_tree_path = s2.to_tree_path ∧
      o1.to_tree_path = o2.to_tree_path ∧
      f1.to_tree_path = f2.to_tree_path := by
  subst hs1 hs2 ho1 ho2
  rw [hf1] at hf2
  cases hf2
  exact ⟨rfl, rfl, rfl⟩

/-- C8 witness. -/
theorem build_deterministic_witness :
    HttpCertification.skip okExternals = HttpCertification.skip okExternals ∧
      HttpCertification.full okExternals exampleFullCel exampleRequest
          exampleResponse none = Except.ok exampleFullCert ∧
      ((HttpCertification.skip okExternals).to_tree_path
          = (HttpCertification.skip okExternals).to_tree_path ∧
        (HttpCertification.response_only okExternals exampleRoCel
            exampleResponse none).to_tree_path
          = (HttpCertification.response_only okExternals exampleRoCel
              exampleResponse none).to_tree_path ∧
        exampleFullCert.to_tree_path = exampleFullCert.to_tree_path) :=
  ⟨rfl, rfl, build_deterministic Unit okExternals exampleRoCel exampleFullCel
    exampleRequest exampleResponse none _ _ _ _ exampleFullCert
    exampleFullCert rfl rfl rfl rfl rfl rfl⟩

/-- C9: `to_tree_path` is injective on certification values, and in
particular a response-only path never coincides with a full path, since
the second segment of a full path is a 32-byte hash and never empty. -/
theorem to_tree_path_injective :
    (∀ c1 c2 : HttpCertification,
        c1.to_tree_path = c2.to_tree_path → c1 = c2) ∧
      ∀ h1 r1 h2 q2 r2 : Hash,
        HttpCertification.to_tree_path ⟨.responseOnly h1 r1⟩
          ≠ HttpCertification.to_tree_path ⟨.full h2 q2 r2⟩ := by
  constructor
  · intro c1 c2 h
    obtain ⟨v1⟩ := c1
    obtain ⟨v2⟩ := c2
    cases v1 with
    | skip a1 =>
        cases v2 with
        | skip a2 =>
            simp only [HttpCertification.to_tree_path,
              List.cons.injEq, and_true] at h
            rw [Subtype.ext h]
        | responseOnly a2 b2 => simp [HttpCertification.to_tree_path] at h
        | full a2 b2 c2 => simp [HttpCertification.to_tree_path] at h
    | responseOnly a1 b1 =>
        cases v2 with
        | skip a2 => simp [HttpCertification.to_tree_path] at h
        | responseOnly a2 b2 =>
            simp only [HttpCertification.to_tree_path, strBytes_nil,
              List.cons.injEq, and_true, true_and] at h
            rw [Subtype.ext h.1, Subtype.ext h.2]
        | full a2 b2 c2 =>
            simp only [HttpCertification.to_tree_path, strBytes_nil,
              List.cons.injEq, and_true] at h
            exact absurd h.2.1.symm (hash_val_ne_nil b2)
    | full a1 b1 c1 =>
        cases v2 with
        | skip a2 => simp [HttpCertification.to_tree_path] at h
        | responseOnly a2 b2 =>
            simp only [HttpCertification.to_tree_path, strBytes_nil,
              List.cons.injEq, and_true] at h
            exact absurd h.2.1 (hash_val_ne_nil b1)
        | full a2 b2 c2 =>
            simp only [HttpCertification.to_tree_path,
              List.cons.injEq, and_true] at h
            rw [Subtype.ext h.1, Subtype.ext h.2.1, Subtype.ext h.2.2]
  · intro h1 r1 h2 q2 r2 h
    simp only [HttpCertification.to_tree_path, strBytes_nil,
      List.cons.injEq, and_true] at h
    exact absurd h.2.1.symm (hash_val_ne_nil q2)

/-- C9 witness. -/
theorem to_tree_path_injective_witness :
    (HttpCertification.mk (.responseOnly hash0 hash1)).to_tree_path
        = (HttpCertification.mk (.responseOnly hash0 hash1)).to_tree_path ∧
      HttpCertification.mk (.responseOnly hash0 hash1)
        = HttpCertification.mk (.responseOnly hash0 hash1) :=
  ⟨rfl, to_tree_path_injective.1 ⟨.responseOnly hash0 hash1⟩
    ⟨.responseOnly hash0 hash1⟩ rfl⟩

/-- C10: every segment of every path is either exactly 32 bytes long or
empty, and an empty segment occurs only at index 1 of a response-only
path. -/
theorem path_segment_shapes (c : HttpCertification) (i : Nat)
    (seg : List Nat) (h : c.to_tree_path.get? i = some seg) :
    (seg.length = 32 ∨ seg = []) ∧
      (seg = [] → i = 1 ∧
        ∃ ch rh, c = HttpCertification.mk (.responseOnly ch rh)) := by
  obtain ⟨v⟩ := c
  cases v with
  | skip a =>
      match i, h with
      | 0, h =>
          have h2 : some a.val = some seg := h
          cases h2
          exact ⟨Or.inl a.property, fun he => absurd he (hash_val_ne_nil a)⟩
  | responseOnly a b =>
      match i, h with
      | 0, h =>
          have h2 : some a.val = some seg := h
          cases h2
          exact ⟨Or.inl a.property, fun he => absurd he (hash_val_ne_nil a)⟩
      | 1, h =>
          have h2 : some (strBytes "") = some seg := h
          cases h2
          exact ⟨Or.inr rfl, fun _ => ⟨rfl, a, b, rfl⟩⟩
      | 2, h =>
          have h2 : some b.val = some seg := h
          cases h2
          exact ⟨Or.inl b.property, fun he => absurd he (hash_val_ne_nil b)⟩
  | full a b c =>
      match i, h with
      | 0, h =>
          have h2 : some a.val = some seg := h
          cases h2
          exact ⟨Or.inl a.property, fun he => absurd he (hash_val_ne_nil a)⟩
      | 1, h =>
          have h2 : some b.val = some seg := h
          cases h2
          exact ⟨Or.inl b.property, fun he => absurd he (hash_val_ne_nil b)⟩
      | 2, h =>
          have h2 : some c.val = some seg := h
          cases h2
          exact ⟨Or.inl c.property, fun he => absurd he (hash_val_ne_nil c)⟩

/-- C10 witness. -/
theorem path_segment_shapes_witness :
    (HttpCertification.mk (.responseOnly hash0 hash1)).to_tree_path.get? 1
        = some [] ∧
      (([] : List Nat).length = 32 ∨ ([] : List Nat) = []) ∧
      (([] : List Nat) = [] → 1 = 1 ∧
        ∃ ch rh, HttpCertification.mk (.responseOnly hash0 hash1)
          = HttpCertification.mk (.responseOnly ch rh)) :=
  ⟨rfl, path_segment_shapes ⟨.responseOnly hash0 hash1⟩ 1 [] rfl⟩
